import Mathlib

/-!
Verification development for the slack-advanced-exporter repository.

We shallowly embed the two subcommands (`fetch-emails` in `cmd/fetch_emails.go`
and `fetch-profile-pictures`) and the paginated Slack API client
(`fetchUserEmails`).  JSON values decoded by Go's `encoding/json` into
`map[string]interface{}` are modelled by `JVal`; since a Go map is unordered
and `encoding/json` re-emits map keys in sorted order, decoding is modelled by
`goDecode`, which canonicalises every object node into a key-sorted,
duplicate-free association list (last duplicate wins, as in Go's decoder).
-/

namespace SAE

/-- A JSON value as it appears textually: object fields keep their textual
order and may repeat.  This is also the shape of a decoded Go value, where an
object is in canonical (key-sorted, duplicate-free) form. -/
inductive JVal where
  | jstr (s : String)
  | jnum (n : Int)
  | jbool (b : Bool)
  | jnull
  | jarr (xs : List JVal)
  | jobj (fs : List (String × JVal))

/-- Association-list lookup by string key (models reading a Go map entry,
first occurrence wins). -/
def getField (k : String) : List (String × α) → Option α
  | [] => none
  | (k', v) :: rest => if k = k' then some v else getField k rest

/-- Sorted insert-or-replace by string key: the canonical-form image of a Go
map store `m[k] = v` followed by `encoding/json`'s sorted-key emission. -/
def insertField (k : String) (v : α) : List (String × α) → List (String × α)
  | [] => [(k, v)]
  | (k', v') :: rest =>
    if k < k' then (k, v) :: (k', v') :: rest
    else if k = k' then (k, v) :: rest
    else (k', v') :: insertField k v rest

/-- Canonicalise a field list the way Go builds a map from textual JSON
object fields: fields are stored left to right, later duplicates overwrite
earlier ones, and the result is key-sorted (Go map + sorted-key encode). -/
def canonFields (fs : List (String × α)) : List (String × α) :=
  fs.foldl (fun acc p => insertField p.1 p.2 acc) []

mutual
/-- `goDecode t` is the Go value obtained by decoding the textual JSON `t`
into `interface{}` (`map[string]interface{}` for objects), viewed in canonical
form: every object node becomes key-sorted and duplicate-free. -/
def goDecode : JVal → JVal
  | .jstr s => .jstr s
  | .jnum n => .jnum n
  | .jbool b => .jbool b
  | .jnull => .jnull
  | .jarr xs => .jarr (goDecodeList xs)
  | .jobj fs => .jobj (canonFields (goDecodeFields fs))

/-- Pointwise `goDecode` on an array's elements. -/
def goDecodeList : List JVal → List JVal
  | [] => []
  | x :: xs => goDecode x :: goDecodeList xs

/-- Pointwise `goDecode` on an object's field values (order untouched;
`canonFields` does the map step afterwards). -/
def goDecodeFields : List (String × JVal) → List (String × JVal)
  | [] => []
  | (k, v) :: fs => (k, goDecode v) :: goDecodeFields fs
end

/-- One user record: the decoded form of one element of the `users.json`
top-level array (a Go `map[string]interface{}` in canonical form). -/
abbrev Record := List (String × JVal)

/-- Decode one textual record: `goDecode` on the field values followed by the
map canonicalisation — exactly the object case of `goDecode`. -/
def decodeRecord (fs : Record) : Record :=
  canonFields (goDecodeFields fs)

/-- Decoding the `users.json` entry: `Decode(&data)` into
`[]map[string]interface{}` decodes each element record. -/
def decodeRecords (txt : List Record) : List Record :=
  txt.map decodeRecord

/-- Whether a decoded record has a string `id` field, i.e. whether the type
assertion `user["id"].(string)` succeeds. -/
def hasStringId (fs : Record) : Bool :=
  match getField "id" fs with
  | some (.jstr _) => true
  | _ => false

/-- The per-record body of the `processUsersJson` loop: when the record has a
string `id` and an object `profile`, store `profile["email"] = emails[userid]`
(the Go map read yields `""` for an absent key); otherwise only log and leave
the record unchanged. -/
def updateUser (emails : List (String × String)) (fs : Record) : Record :=
  match getField "id" fs with
  | some (.jstr userid) =>
    match getField "profile" fs with
    | some (.jobj pfs) =>
      insertField "profile"
        (.jobj (insertField "email" (.jstr ((getField userid emails).getD "")) pfs)) fs
    | _ => fs
  | _ => fs

/-- `processUsersJson`, with the two effectful collaborators passed in as
data: `input` is the result of decoding the entry's bytes (`none` = decode
error) and `fetched` the result of the `fetchUserEmails` call.  The order of
the three failure exits matches the source: decode error, then fetch error,
then the empty-collection check. -/
def processUsersJson (input : Option (List Record))
    (fetched : Except String (List (String × String))) : Except String (List Record) :=
  match input with
  | none => .error "users.json decode error"
  | some txt =>
    match fetched with
    | .error e => .error e
    | .ok emails =>
      let data := decodeRecords txt
      if data.length = 0 then
        .error "Failed to find any users in users.json. Looks like something went wrong."
      else
        .ok (data.map (updateUser emails))

/-- An archive entry: name, header metadata bytes, and content bytes. -/
structure ArchiveEntry where
  name : String
  header : List Nat
  content : List Nat
deriving Repr, DecidableEq

/-- The `fetchEmails` command loop over the input archive's entries.
`processTarget` stands for the `processUsersJson` call on the one entry named
`"users.json"`; every other entry is written with its copied header and its
bytes `io.Copy`-ed verbatim.  An error from the target processing aborts the
run (`os.Exit(1)` in the source). -/
def fetchEmails (processTarget : ArchiveEntry → Except String (List Nat)) :
    List ArchiveEntry → Except String (List ArchiveEntry)
  | [] => .ok []
  | e :: rest =>
    if e.name = "users.json" then
      match processTarget e with
      | .error msg => .error msg
      | .ok c =>
        match fetchEmails processTarget rest with
        | .error msg => .error msg
        | .ok out => .ok ({ name := e.name, header := e.header, content := c } :: out)
    else
      match fetchEmails processTarget rest with
      | .error msg => .error msg
      | .ok out => .ok (e :: out)

/-- The `fetchProfilePics` command loop: identical copying for non-target
entries; the target entry is handled by `downloadPictures`, which writes the
picture entries and the rewritten `users.json` itself (hence the processing
yields a list of entries spliced in at the target's position). -/
def fetchProfilePics (processTarget : ArchiveEntry → Except String (List ArchiveEntry)) :
    List ArchiveEntry → Except String (List ArchiveEntry)
  | [] => .ok []
  | e :: rest =>
    if e.name = "users.json" then
      match processTarget e with
      | .error msg => .error msg
      | .ok entries =>
        match fetchProfilePics processTarget rest with
        | .error msg => .error msg
        | .ok out => .ok (entries ++ out)
    else
      match fetchProfilePics processTarget rest with
      | .error msg => .error msg
      | .ok out => .ok (e :: out)

/-- `strings.HasPrefix` on the character lists of the strings. -/
def goHasPre (s p : String) : Bool :=
  s.data.take p.data.length == p.data

/-- `strings.HasSuffix` on the character lists of the strings
(case-sensitive exact suffix match). -/
def goHasSuf (s p : String) : Bool :=
  s.data.drop (s.data.length - p.data.length) == p.data

/-- `strings.Split(s, ".")` on a character list: split at every `'.'`. -/
def splitOnDot : List Char → List (List Char)
  | [] => [[]]
  | '.' :: rest => [] :: splitOnDot rest
  | c :: rest =>
    match splitOnDot rest with
    | [] => [[c]]
    | g :: gs => (c :: g) :: gs

/-- `"." + parts[len(parts)-1]` for `parts := strings.Split(imageURL, ".")`. -/
def picExtension (url : String) : String :=
  "." ++ String.mk ((splitOnDot url.data).getLastD [])

/-- The URL guard of `downloadPictures`: allow-listed origin and a permitted
extension as an exact suffix. -/
def validPicURL (url : String) : Bool :=
  goHasPre url "https://avatars.slack-edge.com/" &&
    (goHasSuf url ".jpg" || goHasSuf url ".png")

/-- What building and issuing the GET for one picture URL can yield:
`reqError` is `http.NewRequest` returning an error because the URL string
fails Go URL parsing (e.g. an invalid percent-escape such as `%zz`, or a
control byte) — deterministic per URL and fatal in the source; `doError` is
`httpClient.Do` failing at transport level, which is logged and skipped;
`ok` carries the downloaded bytes. -/
inductive DlResult where
  | reqError
  | doError
  | ok (bytes : List Nat)
deriving Repr, DecidableEq

/-- The per-record body of the `downloadPictures` loop.  `dl` stands for
`http.NewRequest` plus `httpClient.Do` on the URL, per `DlResult`.  A
`reqError` is returned as an error from the loop (the caller aborts the whole
run); a `doError` is logged and the record skipped.  On success it returns
the resulting record, the new archive entry written, and the number of GET
requests issued.  Writer IO failures (`w.Create`, `io.Copy`), which do not
depend on the data, are abstracted away as in the rest of the pipeline. -/
def processPicUser (dl : String → DlResult) (fs : Record) :
    Except String (Record × List ArchiveEntry × Nat) :=
  match getField "id" fs with
  | some (.jstr userid) =>
    match getField "profile" fs with
    | some (.jobj pfs) =>
      match getField "image_original" pfs with
      | some (.jstr url) =>
        if validPicURL url then
          match dl url with
          | .reqError => .error "Got error when building the request"
          | .doError => .ok (fs, [], 1)
          | .ok bytes =>
            let picFileName := "profile_pictures/" ++ userid ++ picExtension url
            .ok (insertField "profile"
                   (.jobj (insertField "image_path" (.jstr picFileName) pfs)) fs,
                 [{ name := picFileName, header := [], content := bytes }], 1)
        else .ok (fs, [], 0)
      | _ => .ok (fs, [], 0)
    | _ => .ok (fs, [], 0)
  | _ => .ok (fs, [], 0)

/-- The `downloadPictures` loop over the decoded records, in order; picture
entries are written in encounter order, and a request-building error on any
record aborts the loop (and hence the run). -/
def processPicsCollection (dl : String → DlResult) :
    List Record → Except String (List Record × List ArchiveEntry)
  | [] => .ok ([], [])
  | r :: rest =>
    match processPicUser dl r with
    | .error e => .error e
    | .ok p =>
      match processPicsCollection dl rest with
      | .error e => .error e
      | .ok q => .ok (p.1 :: q.1, p.2.1 ++ q.2)

/-- `downloadPictures`: decode the entry (`none` = decode error), process all
records, and report the picture entries together with the final record
collection written back as `users.json`. -/
def downloadPictures (input : Option (List Record)) (dl : String → DlResult) :
    Except String (List ArchiveEntry × List Record) :=
  match input with
  | none => .error "users.json decode error"
  | some txt =>
    match processPicsCollection dl (decodeRecords txt) with
    | .error e => .error e
    | .ok q => .ok (q.2, q.1)

/-- The page-size bounding at the top of `fetchUserEmails`: nonpositive values
become 200, values above 999 become 999 (values above 200 are only logged). -/
def clampPageSize (n : Int) : Int :=
  let n1 := if n ≤ 0 then 200 else n
  if n1 > 999 then 999 else n1

/-- Digit accumulation for `strconv.Atoi`: fails on a non-digit. -/
def digitsValAux : List Char → Nat → Option Nat
  | [], acc => some acc
  | c :: rest, acc =>
    if c.isDigit then digitsValAux rest (acc * 10 + (c.toNat - 48)) else none

/-- `strconv.Atoi`: an optional sign followed by at least one digit
(machine-word overflow is out of the claims' scope and not modelled). -/
def atoi (s : String) : Option Int :=
  match s.data with
  | [] => none
  | '+' :: rest =>
    if rest = [] then none else (digitsValAux rest 0).map (fun n => (n : Int))
  | '-' :: rest =>
    if rest = [] then none else (digitsValAux rest 0).map (fun n => -(n : Int))
  | cs => (digitsValAux cs 0).map (fun n => (n : Int))

/-- The wait used on an HTTP 429: `waitSec := 1`, overridden by a parseable
nonempty `Retry-After` header (`""` models an absent header, as
`Header.Get` returns). -/
def retryAfterWait (ra : String) : Int :=
  if ra = "" then 1
  else
    match atoi ra with
    | some v => v
    | none => 1

/-- Modelled from the spec: the `SlackUser` struct is declared outside the
provided sources; per the spec, a member carries an identifier and a nested
profile object containing an email field. -/
structure SlackProfile where
  email : String
deriving Repr, DecidableEq

/-- Modelled from the spec: one member object of a `users.list` page, with
its identifier and nested profile. -/
structure SlackUser where
  id : String
  profile : SlackProfile
deriving Repr, DecidableEq

/-- The decoded body of a successful-HTTP `users.list` response: only the
fields the client extracts. -/
structure PageBody where
  ok : Bool
  members : List SlackUser
  nextCursor : String
deriving Repr, DecidableEq

/-- What one attempt of the inner request loop observes: a transport failure
from `client.Do`, or an HTTP response with its status, `Retry-After` header
(`""` = absent) and decoded body (`none` = body that fails JSON decoding;
unused on retried statuses). -/
inductive NetResult where
  | netErr
  | resp (status : Nat) (retryAfter : String) (body : Option PageBody)
deriving Repr, DecidableEq

/-- The outcome of the inner retry loop: the sleeps performed (seconds, in
order), the number of HTTP attempts issued, and the response that broke the
loop. -/
structure RetryOutcome where
  delays : List Int
  attempts : Nat
  status : Nat
  retryAfter : String
  body : Option PageBody
deriving Repr, DecidableEq

/-- The inner `for attempt := 0; ; attempt++` loop of `fetchUserEmails`,
driven by the trace of attempt results: a transport error or an HTTP ≥500
sleeps `2^min(attempt,3)` seconds and retries; a 429 sleeps per
`retryAfterWait` and retries; anything else breaks out.  `none` means the
trace ran out while the loop was still retrying (the real loop has no attempt
bound). -/
def retryLoop : List NetResult → Nat → Option RetryOutcome
  | [], _ => none
  | .netErr :: rest, attempt =>
    (retryLoop rest (attempt + 1)).map fun o =>
      { o with delays := ((2 : Int) ^ min attempt 3) :: o.delays, attempts := o.attempts + 1 }
  | .resp status ra body :: rest, attempt =>
    if status = 429 then
      (retryLoop rest (attempt + 1)).map fun o =>
        { o with delays := retryAfterWait ra :: o.delays, attempts := o.attempts + 1 }
    else if 500 ≤ status then
      (retryLoop rest (attempt + 1)).map fun o =>
        { o with delays := ((2 : Int) ^ min attempt 3) :: o.delays, attempts := o.attempts + 1 }
    else
      some ⟨[], 1, status, ra, body⟩

/-- The member-accumulation loop of a page: `res[user.Id] = user.Profile.Email`
for every member with a nonempty id and email (canonical-map insert). -/
def collectMembers (members : List SlackUser) (acc : List (String × String)) :
    List (String × String) :=
  members.foldl
    (fun m u => if u.id ≠ "" ∧ u.profile.email ≠ "" then insertField u.id u.profile.email m else m)
    acc

/-- Result of the whole paginated fetch: the lookup table and the total number
of HTTP requests issued, an error (with the requests issued so far), or
`diverges` when the supplied trace ran out while the code would still be
looping. -/
inductive FetchResult where
  | ok (emails : List (String × String)) (requests : Nat)
  | err (msg : String) (requests : Nat)
  | diverges
deriving Repr, DecidableEq

/-- The outer pagination loop of `fetchUserEmails`: one inner-loop trace per
page request.  After the inner loop, a status other than 200 or a body lacking
`ok=true` is a terminal error; otherwise members are accumulated and the loop
stops exactly when the returned next cursor is empty. -/
def fetchPages : List (List NetResult) → List (String × String) → FetchResult
  | [], _ => .diverges
  | t :: rest, acc =>
    match retryLoop t 0 with
    | none => .diverges
    | some o =>
      if o.status ≠ 200 then .err ("Slack API returned HTTP code " ++ toString o.status) o.attempts
      else
        match o.body with
        | none => .err "json decode error" o.attempts
        | some pb =>
          if pb.ok = false then
            .err "Unexpected lack of ok=true in Slack API response. Is access token correct?"
              o.attempts
          else
            let acc' := collectMembers pb.members acc
            if pb.nextCursor = "" then .ok acc' o.attempts
            else
              match fetchPages rest acc' with
              | .ok e n => .ok e (o.attempts + n)
              | .err m n => .err m (o.attempts + n)
              | .diverges => .diverges

/-- `fetchUserEmails` as a function of the network trace: the pagination loop
started with the empty accumulated table. -/
def fetchUserEmails (traces : List (List NetResult)) : FetchResult :=
  fetchPages traces []

/-- The trace of a page request answered on the first attempt by a successful
`ok=true` response carrying the given members and next cursor. -/
def okPageTrace (members : List SlackUser) (cursor : String) : List NetResult :=
  [.resp 200 "" (some ⟨true, members, cursor⟩)]

/-- Accumulate the members of a list of (members, cursor) pages in order. -/
def collectAll (ps : List (List SlackUser × String)) (acc : List (String × String)) :
    List (String × String) :=
  ps.foldl (fun a p => collectMembers p.1 a) acc

/-- Whether a fetch result is a terminal error. -/
def isErr : FetchResult → Bool
  | .err _ _ => true
  | _ => false

/-- Whether a decoded-or-not body fails the `ok=true` check of the client
(an undecodable body also lacks the marker). -/
def lacksOk : Option PageBody → Bool
  | none => true
  | some pb => !pb.ok

/-- Strictly-increasing keys: the field order `encoding/json` emits for a Go
map. -/
def KeySorted (l : List (String × α)) : Prop :=
  l.Pairwise (fun a b => a.1 < b.1)

theorem getField_insertField_self (k : String) (v : α) (l : List (String × α)) :
    getField k (insertField k v l) = some v := by
  induction l with
  | nil => simp [insertField, getField]
  | cons hd tl ih =>
    obtain ⟨k', v'⟩ := hd
    by_cases h1 : k < k'
    · simp [insertField, h1, getField]
    · by_cases h2 : k = k'
      · simp [insertField, h1, h2, getField]
      · simp [insertField, h1, h2, getField, ih]

theorem getField_insertField_ne (k k' : String) (v : α) (l : List (String × α))
    (h : k' ≠ k) : getField k' (insertField k v l) = getField k' l := by
  induction l with
  | nil => simp [insertField, getField, h]
  | cons hd tl ih =>
    obtain ⟨k'', v''⟩ := hd
    by_cases h1 : k < k''
    · simp [insertField, h1, getField, h]
    · by_cases h2 : k = k''
      · subst h2; simp [insertField, h1, getField, h]
      · by_cases h3 : k' = k''
        · simp [insertField, h1, h2, getField, h3]
        · simp [insertField, h1, h2, getField, h3, ih]

theorem insertField_mem {a : String × α} {k : String} {v : α} {l : List (String × α)}
    (h : a ∈ insertField k v l) : a = (k, v) ∨ a ∈ l := by
  induction l with
  | nil => simpa [insertField] using h
  | cons hd tl ih =>
    obtain ⟨k', v'⟩ := hd
    by_cases h1 : k < k'
    · simp only [insertField, if_pos h1] at h
      simpa using h
    · by_cases h2 : k = k'
      · simp only [insertField, if_neg h1, if_pos h2] at h
        rcases List.mem_cons.mp h with h' | h'
        · exact Or.inl h'
        · exact Or.inr (List.mem_cons_of_mem _ h')
      · simp only [insertField, if_neg h1, if_neg h2] at h
        rcases List.mem_cons.mp h with h' | h'
        · exact Or.inr (by simp [h'])
        · rcases ih h' with h'' | h''
          · exact Or.inl h''
          · exact Or.inr (List.mem_cons_of_mem _ h'')

theorem keySorted_insertField {k : String} {v : α} {l : List (String × α)}
    (h : KeySorted l) : KeySorted (insertField k v l) := by
  induction l with
  | nil => simp [insertField, KeySorted]
  | cons hd tl ih =>
    obtain ⟨k', v'⟩ := hd
    rw [KeySorted, List.pairwise_cons] at h
    obtain ⟨hall, htl⟩ := h
    by_cases h1 : k < k'
    · rw [KeySorted]
      simp only [insertField, if_pos h1]
      refine List.Pairwise.cons ?_ (List.Pairwise.cons hall htl)
      intro b hb
      rcases List.mem_cons.mp hb with rfl | hb
      · exact h1
      · exact lt_trans h1 (hall b hb)
    · by_cases h2 : k = k'
      · subst h2
        rw [KeySorted]
        simp only [insertField, if_neg h1, if_pos rfl]
        exact List.Pairwise.cons hall htl
      · rw [KeySorted]
        simp only [insertField, if_neg h1, if_neg h2]
        refine List.Pairwise.cons ?_ (ih htl)
        intro b hb
        rcases insertField_mem hb with rfl | hb
        · exact lt_of_le_of_ne (le_of_not_lt h1) (Ne.symm h2)
        · exact hall b hb

theorem insertField_append {k : String} {v : α} {l : List (String × α)}
    (h : ∀ a ∈ l, a.1 < k) : insertField k v l = l ++ [(k, v)] := by
  induction l with
  | nil => simp [insertField]
  | cons hd tl ih =>
    obtain ⟨k', v'⟩ := hd
    have hk' : k' < k := h (k', v') (by simp)
    have h1 : ¬ k < k' := not_lt_of_gt hk'
    have h2 : k ≠ k' := (ne_of_lt hk').symm
    simp only [insertField, if_neg h1, if_neg h2, List.cons_append]
    rw [ih (fun a ha => h a (List.mem_cons_of_mem _ ha))]

theorem foldl_insertField {l : List (String × α)} :
    ∀ {acc : List (String × α)}, KeySorted (acc ++ l) →
      l.foldl (fun m p => insertField p.1 p.2 m) acc = acc ++ l := by
  induction l with
  | nil => intro acc _; simp
  | cons hd tl ih =>
    intro acc h
    obtain ⟨k, v⟩ := hd
    have hacc : ∀ a ∈ acc, a.1 < k := by
      intro a ha
      rw [KeySorted, List.pairwise_append] at h
      exact h.2.2 a ha (k, v) (by simp)
    have hperm : (acc ++ [(k, v)]) ++ tl = acc ++ (k, v) :: tl := by simp
    simp only [List.foldl_cons]
    rw [insertField_append hacc, ih (by rw [KeySorted, hperm]; exact h), hperm]

theorem canonFields_of_keySorted {l : List (String × α)} (h : KeySorted l) :
    canonFields l = l := by
  have h0 : KeySorted (([] : List (String × α)) ++ l) := by simpa using h
  have h1 := foldl_insertField h0
  simpa [canonFields] using h1

theorem keySorted_foldl_insertField {l : List (String × α)} :
    ∀ {acc : List (String × α)}, KeySorted acc →
      KeySorted (l.foldl (fun m p => insertField p.1 p.2 m) acc) := by
  induction l with
  | nil => intro acc h; simpa using h
  | cons hd tl ih =>
    intro acc h
    simp only [List.foldl_cons]
    exact ih (keySorted_insertField h)

theorem keySorted_canonFields (l : List (String × α)) : KeySorted (canonFields l) :=
  keySorted_foldl_insertField (by simp [KeySorted])

mutual
/-- A Go value in canonical form: every object node key-sorted. -/
inductive CanonV : JVal → Prop
  | str (s : String) : CanonV (.jstr s)
  | num (n : Int) : CanonV (.jnum n)
  | bool (b : Bool) : CanonV (.jbool b)
  | null : CanonV .jnull
  | arr {xs : List JVal} : CanonL xs → CanonV (.jarr xs)
  | obj {fs : List (String × JVal)} : KeySorted fs → CanonF fs → CanonV (.jobj fs)

/-- All array elements canonical. -/
inductive CanonL : List JVal → Prop
  | nil : CanonL []
  | cons {x : JVal} {xs : List JVal} : CanonV x → CanonL xs → CanonL (x :: xs)

/-- All field values canonical. -/
inductive CanonF : List (String × JVal) → Prop
  | nil : CanonF []
  | cons {k : String} {v : JVal} {fs : List (String × JVal)} :
      CanonV v → CanonF fs → CanonF ((k, v) :: fs)
end

theorem canonF_insertField (k : String) (v : JVal) (hv : CanonV v) :
    ∀ (l : List (String × JVal)), CanonF l → CanonF (insertField k v l) := by
  intro l
  induction l with
  | nil =>
    intro _
    simp only [insertField]
    exact CanonF.cons hv CanonF.nil
  | cons hd tl ih =>
    obtain ⟨k', v'⟩ := hd
    intro hl
    have hv' : CanonV v' := by cases hl with | cons a b => exact a
    have hfs : CanonF tl := by cases hl with | cons a b => exact b
    by_cases h1 : k < k'
    · simp only [insertField, if_pos h1]
      exact CanonF.cons hv (CanonF.cons hv' hfs)
    · by_cases h2 : k = k'
      · simp only [insertField, if_neg h1, if_pos h2]
        exact CanonF.cons hv hfs
      · simp only [insertField, if_neg h1, if_neg h2]
        exact CanonF.cons hv' (ih hfs)

theorem canonF_foldl :
    ∀ (l : List (String × JVal)) {acc : List (String × JVal)}, CanonF l → CanonF acc →
      CanonF (l.foldl (fun m p => insertField p.1 p.2 m) acc) := by
  intro l
  induction l with
  | nil => intro acc _ h; simpa using h
  | cons hd tl ih =>
    obtain ⟨k, v⟩ := hd
    intro acc hl hacc
    have hv : CanonV v := by cases hl with | cons a b => exact a
    have hfs : CanonF tl := by cases hl with | cons a b => exact b
    simp only [List.foldl_cons]
    exact ih hfs (canonF_insertField k v hv acc hacc)

theorem canonF_canonFields {l : List (String × JVal)} (hl : CanonF l) :
    CanonF (canonFields l) :=
  canonF_foldl l hl CanonF.nil

mutual
theorem canonV_goDecode : (t : JVal) → CanonV (goDecode t)
  | .jstr s => by simp only [goDecode]; exact CanonV.str s
  | .jnum n => by simp only [goDecode]; exact CanonV.num n
  | .jbool b => by simp only [goDecode]; exact CanonV.bool b
  | .jnull => by simp only [goDecode]; exact CanonV.null
  | .jarr xs => by simp only [goDecode]; exact CanonV.arr (canonL_goDecodeList xs)
  | .jobj fs => by
    simp only [goDecode]
    exact CanonV.obj (keySorted_canonFields _) (canonF_canonFields (canonF_goDecodeFields fs))

theorem canonL_goDecodeList : (xs : List JVal) → CanonL (goDecodeList xs)
  | [] => by simp only [goDecodeList]; exact CanonL.nil
  | x :: xs => by
    simp only [goDecodeList]
    exact CanonL.cons (canonV_goDecode x) (canonL_goDecodeList xs)

theorem canonF_goDecodeFields : (fs : List (String × JVal)) → CanonF (goDecodeFields fs)
  | [] => by simp only [goDecodeFields]; exact CanonF.nil
  | (k, v) :: fs => by
    simp only [goDecodeFields]
    exact CanonF.cons (canonV_goDecode v) (canonF_goDecodeFields fs)
end

mutual
theorem goDecode_of_canonV : (t : JVal) → CanonV t → goDecode t = t
  | .jstr _, _ => by simp only [goDecode]
  | .jnum _, _ => by simp only [goDecode]
  | .jbool _, _ => by simp only [goDecode]
  | .jnull, _ => by simp only [goDecode]
  | .jarr xs, h => by
    simp only [goDecode]
    cases h with
    | arr hl => rw [goDecodeList_of_canonL xs hl]
  | .jobj fs, h => by
    simp only [goDecode]
    cases h with
    | obj hs hf => rw [goDecodeFields_of_canonF fs hf, canonFields_of_keySorted hs]

theorem goDecodeList_of_canonL : (xs : List JVal) → CanonL xs → goDecodeList xs = xs
  | [], _ => by simp only [goDecodeList]
  | x :: xs, h => by
    cases h with
    | cons hv hl =>
      simp only [goDecodeList]
      rw [goDecode_of_canonV x hv, goDecodeList_of_canonL xs hl]

theorem goDecodeFields_of_canonF :
    (fs : List (String × JVal)) → CanonF fs → goDecodeFields fs = fs
  | [], _ => by simp only [goDecodeFields]
  | (k, v) :: fs, h => by
    cases h with
    | cons hv hf =>
      simp only [goDecodeFields]
      rw [goDecode_of_canonV v hv, goDecodeFields_of_canonF fs hf]
end

theorem goDecode_idem (t : JVal) : goDecode (goDecode t) = goDecode t :=
  goDecode_of_canonV _ (canonV_goDecode t)

theorem decodeRecord_idem (fs : Record) : decodeRecord (decodeRecord fs) = decodeRecord fs := by
  unfold decodeRecord
  rw [goDecodeFields_of_canonF _ (canonF_canonFields (canonF_goDecodeFields fs)),
    canonFields_of_keySorted (keySorted_canonFields _)]

theorem decodeRecords_idem (txt : List Record) :
    decodeRecords (decodeRecords txt) = decodeRecords txt := by
  simp [decodeRecords, Function.comp, decodeRecord_idem]

/-- C9: before any page request, `fetchUserEmails` bounds the page size into
the permitted range: nonpositive values are replaced by the default 200,
values above 999 are reduced to 999, values in between (including those above
the soft-recommended 200) are kept — so the page size sent always lies in
[1, 999]. -/
theorem C9_page_size_clamped (n : Int) :
    1 ≤ clampPageSize n ∧ clampPageSize n ≤ 999 ∧
    (n ≤ 0 → clampPageSize n = 200) ∧
    (999 < n → clampPageSize n = 999) ∧
    (0 < n → n ≤ 999 → clampPageSize n = n) := by
  simp only [clampPageSize]
  split_ifs <;> omega

theorem C9_page_size_clamped_witness :
    clampPageSize 0 = 200 ∧ clampPageSize 1500 = 999 ∧ clampPageSize 300 = 300 :=
  ⟨(C9_page_size_clamped 0).2.2.1 (by decide),
   (C9_page_size_clamped 1500).2.2.2.1 (by decide),
   (C9_page_size_clamped 300).2.2.2.2 (by decide) (by decide)⟩

/-- An archive with no target entry passes through the fetch-emails pipeline
untouched. -/
theorem fetchEmails_all_nontarget (pe : ArchiveEntry → Except String (List Nat))
    (entries : List ArchiveEntry) (h : ∀ e ∈ entries, e.name ≠ "users.json") :
    fetchEmails pe entries = .ok entries := by
  induction entries with
  | nil => rfl
  | cons e rest ih =>
    have he : e.name ≠ "users.json" := h e (by simp)
    have hr := ih fun x hx => h x (List.mem_cons_of_mem _ hx)
    simp only [fetchEmails, if_neg he, hr]

/-- An archive with no target entry passes through the fetch-profile-pictures
pipeline untouched. -/
theorem fetchProfilePics_all_nontarget
    (pp : ArchiveEntry → Except String (List ArchiveEntry))
    (entries : List ArchiveEntry) (h : ∀ e ∈ entries, e.name ≠ "users.json") :
    fetchProfilePics pp entries = .ok entries := by
  induction entries with
  | nil => rfl
  | cons e rest ih =>
    have he : e.name ≠ "users.json" := h e (by simp)
    have hr := ih fun x hx => h x (List.mem_cons_of_mem _ hx)
    simp only [fetchProfilePics, if_neg he, hr]

/-- A non-target run of entries is copied verbatim in front of whatever the
rest of the fetch-emails pipeline produces. -/
theorem fetchEmails_nontarget_front (pe : ArchiveEntry → Except String (List Nat))
    (a rest : List ArchiveEntry) (h : ∀ e ∈ a, e.name ≠ "users.json") :
    fetchEmails pe (a ++ rest) = (fetchEmails pe rest).map fun out => a ++ out := by
  induction a with
  | nil =>
    simp only [List.nil_append]
    cases h' : fetchEmails pe rest <;> simp [Except.map]
  | cons e a ih =>
    have he : e.name ≠ "users.json" := h e (by simp)
    have ha : ∀ x ∈ a, x.name ≠ "users.json" := fun x hx => h x (by simp [hx])
    rw [List.cons_append]
    rw [show fetchEmails pe (e :: (a ++ rest)) =
        (match fetchEmails pe (a ++ rest) with
          | Except.error msg => Except.error msg
          | Except.ok out => Except.ok (e :: out)) from by
      simp only [fetchEmails, if_neg he]]
    rw [ih ha]
    cases h' : fetchEmails pe rest <;> simp [Except.map]

/-- A non-target run of entries is copied verbatim in front of whatever the
rest of the fetch-profile-pictures pipeline produces. -/
theorem fetchProfilePics_nontarget_front
    (pp : ArchiveEntry → Except String (List ArchiveEntry))
    (a rest : List ArchiveEntry) (h : ∀ e ∈ a, e.name ≠ "users.json") :
    fetchProfilePics pp (a ++ rest) = (fetchProfilePics pp rest).map fun out => a ++ out := by
  induction a with
  | nil =>
    simp only [List.nil_append]
    cases h' : fetchProfilePics pp rest <;> simp [Except.map]
  | cons e a ih =>
    have he : e.name ≠ "users.json" := h e (by simp)
    have ha : ∀ x ∈ a, x.name ≠ "users.json" := fun x hx => h x (by simp [hx])
    rw [List.cons_append]
    rw [show fetchProfilePics pp (e :: (a ++ rest)) =
        (match fetchProfilePics pp (a ++ rest) with
          | Except.error msg => Except.error msg
          | Except.ok out => Except.ok (e :: out)) from by
      simp only [fetchProfilePics, if_neg he]]
    rw [ih ha]
    cases h' : fetchProfilePics pp rest <;> simp [Except.map]

/-- C1: both pipelines copy every entry whose name is not `"users.json"` with
identical name, header metadata and byte content, even while the target entry
between them is intercepted and rewritten (fetch-emails keeps the target's
copied header and replaces only its bytes; fetch-profile-pictures splices the
processing's entries at the target's position); consequently an input archive
with no entry of the target name is reproduced as-is and the run succeeds,
whatever the target-entry processing would do. -/
theorem C1_nontarget_entries_copied
    (pe : ArchiveEntry → Except String (List Nat))
    (pp : ArchiveEntry → Except String (List ArchiveEntry))
    (a b : List ArchiveEntry) (tgt : ArchiveEntry) (c : List Nat)
    (es : List ArchiveEntry)
    (ha : ∀ e ∈ a, e.name ≠ "users.json") (hb : ∀ e ∈ b, e.name ≠ "users.json")
    (htgt : tgt.name = "users.json") :
    (pe tgt = .ok c →
      fetchEmails pe (a ++ tgt :: b) =
        .ok (a ++ { name := tgt.name, header := tgt.header, content := c } :: b)) ∧
    (pp tgt = .ok es →
      fetchProfilePics pp (a ++ tgt :: b) = .ok (a ++ (es ++ b))) ∧
    fetchEmails pe a = .ok a ∧ fetchProfilePics pp a = .ok a := by
  refine ⟨?_, ?_, fetchEmails_all_nontarget pe a ha, fetchProfilePics_all_nontarget pp a ha⟩
  · intro hpe
    have hmid : fetchEmails pe (tgt :: b) =
        .ok ({ name := tgt.name, header := tgt.header, content := c } :: b) := by
      simp only [fetchEmails, if_pos htgt, hpe, fetchEmails_all_nontarget pe b hb]
    rw [fetchEmails_nontarget_front pe a (tgt :: b) ha, hmid]
    rfl
  · intro hpp
    have hmid : fetchProfilePics pp (tgt :: b) = .ok (es ++ b) := by
      simp only [fetchProfilePics, if_pos htgt, hpp, fetchProfilePics_all_nontarget pp b hb]
    rw [fetchProfilePics_nontarget_front pp a (tgt :: b) ha, hmid]
    rfl

theorem C1_nontarget_entries_copied_witness :
    fetchEmails (fun _ => .ok [9])
        ([⟨"channels.json", [1], [2]⟩] ++ ⟨"users.json", [3], [4]⟩ ::
          [⟨"attachments/a.png", [], [5]⟩]) =
      .ok ([⟨"channels.json", [1], [2]⟩] ++ ⟨"users.json", [3], [9]⟩ ::
        [⟨"attachments/a.png", [], [5]⟩]) ∧
    fetchProfilePics (fun _ => .ok [⟨"profile_pictures/U1.jpg", [], [6]⟩, ⟨"users.json", [3], [9]⟩])
        ([⟨"channels.json", [1], [2]⟩] ++ ⟨"users.json", [3], [4]⟩ ::
          [⟨"attachments/a.png", [], [5]⟩]) =
      .ok ([⟨"channels.json", [1], [2]⟩] ++
        ([⟨"profile_pictures/U1.jpg", [], [6]⟩, ⟨"users.json", [3], [9]⟩] ++
          [⟨"attachments/a.png", [], [5]⟩])) :=
  ⟨(C1_nontarget_entries_copied (fun _ => .ok [9])
      (fun _ => .ok [⟨"profile_pictures/U1.jpg", [], [6]⟩, ⟨"users.json", [3], [9]⟩])
      [⟨"channels.json", [1], [2]⟩] [⟨"attachments/a.png", [], [5]⟩]
      ⟨"users.json", [3], [4]⟩ [9] [⟨"profile_pictures/U1.jpg", [], [6]⟩, ⟨"users.json", [3], [9]⟩]
      (by decide) (by decide) rfl).1 rfl,
   (C1_nontarget_entries_copied (fun _ => .ok [9])
      (fun _ => .ok [⟨"profile_pictures/U1.jpg", [], [6]⟩, ⟨"users.json", [3], [9]⟩])
      [⟨"channels.json", [1], [2]⟩] [⟨"attachments/a.png", [], [5]⟩]
      ⟨"users.json", [3], [4]⟩ [9] [⟨"profile_pictures/U1.jpg", [], [6]⟩, ⟨"users.json", [3], [9]⟩]
      (by decide) (by decide) rfl).2.1 rfl⟩

/-- C10: when `users.json` decodes to zero records, `processUsersJson`
returns the dedicated error — but only after the fetch result is consulted
(a fetch error surfaces instead, even on an empty collection) — and a
processing error aborts the whole `fetchEmails` run. -/
theorem C10_empty_users_fatal_after_fetch :
    (∀ emails, processUsersJson (some []) (.ok emails) =
      .error "Failed to find any users in users.json. Looks like something went wrong.") ∧
    (∀ e, processUsersJson (some []) (.error e) = .error e) ∧
    (∀ (pT : ArchiveEntry → Except String (List Nat)) (hdr cnt : List Nat)
        (rest : List ArchiveEntry) (msg : String),
      pT ⟨"users.json", hdr, cnt⟩ = .error msg →
      fetchEmails pT (⟨"users.json", hdr, cnt⟩ :: rest) = .error msg) := by
  refine ⟨fun emails => rfl, fun e => rfl, ?_⟩
  intro pT hdr cnt rest msg h
  simp [fetchEmails, h]

theorem C10_empty_users_fatal_after_fetch_witness :
    processUsersJson (some []) (Except.ok []) =
        .error "Failed to find any users in users.json. Looks like something went wrong." ∧
      fetchEmails (fun _ => .error "boom") [⟨"users.json", [], []⟩] = .error "boom" :=
  ⟨C10_empty_users_fatal_after_fetch.1 [],
   C10_empty_users_fatal_after_fetch.2.2 (fun _ => .error "boom") [] [] [] "boom" rfl⟩

/-- C6 (amended): re-encoding a decoded record collection with no mutations
is a no-op at the field-name/field-value level — every field, including
fields unknown to the tool, keeps its name and value — but the original
textual field order is not preserved: the decoder reads objects into
unordered Go maps and the encoder emits their keys in sorted order, so the
re-encoded field order is the key-sorted one. -/
theorem C6_roundtrip_field_values :
    (∀ txt : List Record, decodeRecords (decodeRecords txt) = decodeRecords txt) ∧
    (∀ fs : Record, KeySorted (decodeRecord fs)) ∧
    (∀ (fs : Record) (k : String),
      getField k (decodeRecord (decodeRecord fs)) = getField k (decodeRecord fs)) :=
  ⟨decodeRecords_idem, fun _ => keySorted_canonFields _,
   fun fs k => by rw [decodeRecord_idem]⟩

theorem C6_field_order_counterexample :
    decodeRecords [[("b", JVal.jnull), ("a", JVal.jnull)]] ≠
      [[("b", JVal.jnull), ("a", JVal.jnull)]] := by
  have hab : ("a" : String) < "b" := by
    rw [String.lt_iff_toList_lt]; decide
  have h : decodeRecords [[("b", JVal.jnull), ("a", JVal.jnull)]] =
      [[("a", JVal.jnull), ("b", JVal.jnull)]] := by
    simp [decodeRecords, decodeRecord, goDecodeFields, goDecode, canonFields, insertField, hab]
  rw [h]
  intro hcontra
  have := List.head_eq_of_cons_eq hcontra
  have h2 := List.head_eq_of_cons_eq this
  simp at h2

/-- C2: in fetch-emails mode, every record with a string `id` and an object
`profile` gets its `profile.email` set from the lookup table — to the table's
value when the id is present, and to the empty string (still written, never
omitted) when it is absent — and every other field of the profile and of the
record is preserved. -/
theorem C2_email_field_written (emails : List (String × String)) (fs pfs : Record)
    (uid : String)
    (hid : getField "id" fs = some (.jstr uid))
    (hpr : getField "profile" fs = some (.jobj pfs)) :
    ∃ pfs' : Record,
      getField "profile" (updateUser emails fs) = some (.jobj pfs') ∧
      (∀ e, getField uid emails = some e → getField "email" pfs' = some (.jstr e)) ∧
      (getField uid emails = none → getField "email" pfs' = some (.jstr "")) ∧
      (∀ k, k ≠ "email" → getField k pfs' = getField k pfs) ∧
      (∀ k, k ≠ "profile" → getField k (updateUser emails fs) = getField k fs) := by
  refine ⟨insertField "email" (.jstr ((getField uid emails).getD "")) pfs, ?_, ?_, ?_, ?_, ?_⟩
  · simp only [updateUser, hid, hpr]
    exact getField_insertField_self _ _ _
  · intro e he
    rw [he]
    simpa using getField_insertField_self "email" (JVal.jstr e) pfs
  · intro he
    rw [he]
    simpa using getField_insertField_self "email" (JVal.jstr "") pfs
  · intro k hk
    exact getField_insertField_ne _ _ _ _ hk
  · intro k hk
    simp only [updateUser, hid, hpr]
    exact getField_insertField_ne _ _ _ _ hk

theorem C2_email_field_written_witness :
    ∃ pfs' : Record,
      getField "profile"
          (updateUser [("U1", "a@b.c")]
            [("id", JVal.jstr "U1"), ("profile", JVal.jobj [("name", JVal.jstr "x")])]) =
        some (.jobj pfs') ∧
      (∀ e, getField "U1" [("U1", "a@b.c")] = some e →
        getField "email" pfs' = some (.jstr e)) ∧
      (getField "U1" [("U1", "a@b.c")] = none → getField "email" pfs' = some (.jstr "")) ∧
      (∀ k, k ≠ "email" → getField k pfs' = getField k [("name", JVal.jstr "x")]) ∧
      (∀ k, k ≠ "profile" →
        getField k
            (updateUser [("U1", "a@b.c")]
              [("id", JVal.jstr "U1"), ("profile", JVal.jobj [("name", JVal.jstr "x")])]) =
          getField k [("id", JVal.jstr "U1"), ("profile", JVal.jobj [("name", JVal.jstr "x")])]) :=
  C2_email_field_written [("U1", "a@b.c")] _ _ "U1" (by simp [getField]) (by simp [getField])

/-- A record whose `id` type assertion fails is left unchanged by the
fetch-emails per-record step. -/
theorem updateUser_of_no_id (emails : List (String × String)) {fs : Record}
    (h : hasStringId fs = false) : updateUser emails fs = fs := by
  have h' := h
  unfold hasStringId at h'
  unfold updateUser
  rcases hid : getField "id" fs with _ | v
  · simp [hid]
  · rw [hid] at h'
    cases v with
    | jstr s => simp at h'
    | jnum n => simp [hid]
    | jbool b => simp [hid]
    | jnull => simp [hid]
    | jarr xs => simp [hid]
    | jobj fs2 => simp [hid]

/-- A record whose `id` type assertion fails is left unchanged by the
fetch-profile-pictures per-record step, with no entry written, no request
issued, and no error. -/
theorem processPicUser_of_no_id (dl : String → DlResult) {fs : Record}
    (h : hasStringId fs = false) : processPicUser dl fs = .ok (fs, [], 0) := by
  have h' := h
  unfold hasStringId at h'
  unfold processPicUser
  rcases hid : getField "id" fs with _ | v
  · simp [hid]
  · rw [hid] at h'
    cases v with
    | jstr s => simp at h'
    | jnum n => simp [hid]
    | jbool b => simp [hid]
    | jnull => simp [hid]
    | jarr xs => simp [hid]
    | jobj fs2 => simp [hid]

/-- When two sub-collections process without a run abort, so does their
concatenation, with records and entries concatenated in order. -/
theorem processPicsCollection_append (dl : String → DlResult) (xs ys : List Record)
    (p q : List Record × List ArchiveEntry)
    (hx : processPicsCollection dl xs = .ok p)
    (hy : processPicsCollection dl ys = .ok q) :
    processPicsCollection dl (xs ++ ys) = .ok (p.1 ++ q.1, p.2 ++ q.2) := by
  induction xs generalizing p with
  | nil =>
    simp only [processPicsCollection] at hx
    cases hx
    simpa using hy
  | cons r rest ih =>
    simp only [List.cons_append, processPicsCollection, List.append_eq] at hx ⊢
    rcases h1 : processPicUser dl r with e | pr
    · simp [h1] at hx
    · simp only [h1] at hx ⊢
      rcases h2 : processPicsCollection dl rest with e | q2
      · simp [h2] at hx
      · simp only [h2, Except.ok.injEq] at hx
        rw [ih q2 h2]
        subst hx
        simp

/-- C8: in both modes, a decoded record without a string `id` field is
skipped without any error of its own and emitted unchanged at its position in
the output collection; the run continues and processes the remaining records
(in pictures mode: whenever the surrounding records themselves process
without a run abort, the whole collection does, with the skipped record
passed through unchanged and contributing no entries). -/
theorem C8_missing_id_skipped (emails : List (String × String))
    (dl : String → DlResult) (fs : Record) (pre post : List Record)
    (h : hasStringId fs = false) :
    updateUser emails fs = fs ∧
    processPicUser dl fs = .ok (fs, [], 0) ∧
    (pre ++ fs :: post).map (updateUser emails) =
      pre.map (updateUser emails) ++ fs :: post.map (updateUser emails) ∧
    (∀ txt : List Record, txt ≠ [] →
      processUsersJson (some txt) (.ok emails) =
        .ok ((decodeRecords txt).map (updateUser emails))) ∧
    (∀ p q : List Record × List ArchiveEntry,
      processPicsCollection dl pre = .ok p →
      processPicsCollection dl post = .ok q →
      processPicsCollection dl (pre ++ fs :: post) =
        .ok (p.1 ++ fs :: q.1, p.2 ++ q.2)) := by
  refine ⟨updateUser_of_no_id emails h, processPicUser_of_no_id dl h, ?_, ?_, ?_⟩
  · simp [updateUser_of_no_id emails h]
  · intro txt htxt
    have hlen : ¬ (decodeRecords txt).length = 0 := by
      simp [decodeRecords, htxt]
    simp [processUsersJson, hlen]
  · intro p q hp hq
    have hmid : processPicsCollection dl (fs :: post) = .ok (fs :: q.1, q.2) := by
      simp only [processPicsCollection, processPicUser_of_no_id dl h, hq, List.nil_append]
    have := processPicsCollection_append dl pre (fs :: post) p (fs :: q.1, q.2) hp hmid
    simpa using this

theorem C8_missing_id_skipped_witness :
    updateUser [] [("name", JVal.jstr "x")] = [("name", JVal.jstr "x")] ∧
      processPicUser (fun _ => .doError) [("name", JVal.jstr "x")] =
        .ok ([("name", JVal.jstr "x")], [], 0) ∧
      processPicsCollection (fun _ => .doError) [[("name", JVal.jstr "x")]] =
        .ok ([[("name", JVal.jstr "x")]], []) :=
  ⟨(C8_missing_id_skipped [] (fun _ => .doError) [("name", JVal.jstr "x")] [] [] rfl).1,
   (C8_missing_id_skipped [] (fun _ => .doError) [("name", JVal.jstr "x")] [] [] rfl).2.1,
   (C8_missing_id_skipped [] (fun _ => .doError) [("name", JVal.jstr "x")] [] [] rfl).2.2.2.2
     ([], []) ([], []) rfl rfl⟩

/-- C7 (amended): in fetch-profile-pictures mode, a record whose
`profile.image_original` passes the origin-prefix and extension checks and
whose request can be built gets exactly one GET, never retried: on success a
new entry `profile_pictures/<id><extension>` holding the downloaded bytes is
added and `profile.image_path` is set to that same name; on a transport
failure of the GET the record is skipped unchanged with no entry.  A
guard-passing URL whose request building fails (Go URL parsing rejects the
string) aborts the whole run with no GET, no entry, and no mutation.  A URL
failing either guard check issues no request, adds no entry, and leaves the
record unmodified.  The spec's example URL passes the check and yields
`profile_pictures/U123.jpg`. -/
theorem C7_profile_picture_fetch (dl : String → DlResult) (fs pfs : Record)
    (uid url : String) (bytes : List Nat)
    (hid : getField "id" fs = some (.jstr uid))
    (hpr : getField "profile" fs = some (.jobj pfs))
    (him : getField "image_original" pfs = some (.jstr url)) :
    (validPicURL url = true → dl url = .ok bytes →
      processPicUser dl fs =
        .ok (insertField "profile"
               (.jobj (insertField "image_path"
                  (.jstr ("profile_pictures/" ++ uid ++ picExtension url)) pfs)) fs,
             [{ name := "profile_pictures/" ++ uid ++ picExtension url, header := [],
                content := bytes }], 1)) ∧
    (validPicURL url = true → dl url = .doError →
      processPicUser dl fs = .ok (fs, [], 1)) ∧
    (validPicURL url = true → dl url = .reqError →
      processPicUser dl fs = .error "Got error when building the request") ∧
    (validPicURL url = false → processPicUser dl fs = .ok (fs, [], 0)) ∧
    validPicURL "https://avatars.slack-edge.com/2020-01-01/U123_512.jpg" = true ∧
    "profile_pictures/" ++ "U123" ++
        picExtension "https://avatars.slack-edge.com/2020-01-01/U123_512.jpg" =
      "profile_pictures/U123.jpg" := by
  refine ⟨?_, ?_, ?_, ?_, by decide, by decide⟩
  · intro hv hdl
    simp only [processPicUser, hid, hpr, him, hv, if_true, hdl]
  · intro hv hdl
    simp only [processPicUser, hid, hpr, him, hv, if_true, hdl]
  · intro hv hdl
    simp only [processPicUser, hid, hpr, him, hv, if_true, hdl]
  · intro hv
    simp only [processPicUser, hid, hpr, him, hv, Bool.false_eq_true, if_false]

theorem C7_profile_picture_fetch_witness :
    processPicUser (fun _ => .ok [7])
        [("id", JVal.jstr "U123"),
         ("profile", JVal.jobj
           [("image_original",
             JVal.jstr "https://avatars.slack-edge.com/2020-01-01/U123_512.jpg")])] =
      .ok (insertField "profile"
             (.jobj (insertField "image_path"
                (.jstr ("profile_pictures/" ++ "U123" ++
                  picExtension "https://avatars.slack-edge.com/2020-01-01/U123_512.jpg"))
                [("image_original",
                  JVal.jstr "https://avatars.slack-edge.com/2020-01-01/U123_512.jpg")]))
             [("id", JVal.jstr "U123"),
              ("profile", JVal.jobj
                [("image_original",
                  JVal.jstr "https://avatars.slack-edge.com/2020-01-01/U123_512.jpg")])],
           [{ name := "profile_pictures/" ++ "U123" ++
                picExtension "https://avatars.slack-edge.com/2020-01-01/U123_512.jpg",
              header := [], content := [7] }], 1) :=
  (C7_profile_picture_fetch (fun _ => .ok [7]) _ _ "U123"
      "https://avatars.slack-edge.com/2020-01-01/U123_512.jpg" [7]
      (by simp [getField]) (by simp [getField]) (by simp [getField])).1
    (by decide) rfl

theorem C7_request_build_abort_counterexample :
    validPicURL "https://avatars.slack-edge.com/%zz.jpg" = true ∧
      processPicUser (fun _ => DlResult.reqError)
          [("id", JVal.jstr "U9"),
           ("profile", JVal.jobj
             [("image_original", JVal.jstr "https://avatars.slack-edge.com/%zz.jpg")])] =
        .error "Got error when building the request" :=
  ⟨by decide, rfl⟩

/-- C3: each retry class of the inner request loop — transport failure and
HTTP ≥500 wait `2^min(attempt,3)` seconds, HTTP 429 waits per the
`Retry-After` header with a default of 1 second when absent or unparseable —
and all of them retry without bound; a 429 with `Retry-After: 2` followed by
a success waits 2 seconds and returns the successful page's members. -/
theorem C3_retry_backoff_policy :
    (∀ (rest : List NetResult) (a : Nat),
      retryLoop (.netErr :: rest) a =
        (retryLoop rest (a + 1)).map fun o =>
          { o with delays := ((2 : Int) ^ min a 3) :: o.delays,
                   attempts := o.attempts + 1 }) ∧
    (∀ (rest : List NetResult) (a : Nat) (ra : String) (b : Option PageBody),
      retryLoop (.resp 429 ra b :: rest) a =
        (retryLoop rest (a + 1)).map fun o =>
          { o with delays := retryAfterWait ra :: o.delays,
                   attempts := o.attempts + 1 }) ∧
    (∀ (rest : List NetResult) (a s : Nat) (ra : String) (b : Option PageBody),
      500 ≤ s →
      retryLoop (.resp s ra b :: rest) a =
        (retryLoop rest (a + 1)).map fun o =>
          { o with delays := ((2 : Int) ^ min a 3) :: o.delays,
                   attempts := o.attempts + 1 }) ∧
    retryAfterWait "" = 1 ∧
    (∀ s : String, atoi s = none → retryAfterWait s = 1) ∧
    (∀ (s : String) (v : Int), atoi s = some v → retryAfterWait s = v) ∧
    (∀ a n : Nat, retryLoop (List.replicate n .netErr) a = none) ∧
    (∀ ms : List SlackUser,
      retryLoop [.resp 429 "2" none, .resp 200 "" (some ⟨true, ms, ""⟩)] 0 =
          some ⟨[2], 2, 200, "", some ⟨true, ms, ""⟩⟩ ∧
        fetchUserEmails [[.resp 429 "2" none, .resp 200 "" (some ⟨true, ms, ""⟩)]] =
          .ok (collectMembers ms []) 2) := by
  refine ⟨fun rest a => rfl, fun rest a ra b => by simp [retryLoop], ?_, rfl, ?_, ?_, ?_, ?_⟩
  · intro rest a s ra b hs
    have h429 : ¬ s = 429 := by omega
    simp only [retryLoop, if_neg h429, if_pos hs]
  · intro s h
    by_cases hs : s = ""
    · subst hs; rfl
    · simp [retryAfterWait, hs, h]
  · intro s v h
    have hs : s ≠ "" := by
      rintro rfl
      rw [show atoi "" = none from rfl] at h
      simp at h
    simp [retryAfterWait, hs, h]
  · intro a n
    induction n generalizing a with
    | zero => rfl
    | succ n ih => simp [List.replicate_succ, retryLoop, ih]
  · intro ms
    exact ⟨rfl, rfl⟩

theorem C3_retry_backoff_policy_witness :
    (500 ≤ 503 ∧
      retryLoop [.resp 503 "" none] 0 =
        (retryLoop [] 1).map fun o =>
          { o with delays := ((2 : Int) ^ min 0 3) :: o.delays,
                   attempts := o.attempts + 1 }) ∧
    atoi "zz" = none ∧ retryAfterWait "zz" = 1 ∧
    atoi "2" = some 2 ∧ retryAfterWait "2" = 2 :=
  ⟨⟨by omega, C3_retry_backoff_policy.2.2.1 [] 0 503 "" none (by omega)⟩,
   rfl, C3_retry_backoff_policy.2.2.2.2.1 "zz" rfl,
   rfl, C3_retry_backoff_policy.2.2.2.2.2.1 "2" 2 rfl⟩

/-- A page answered first try with a 200 `ok=true` body and a nonempty cursor:
the loop accumulates the members and continues with one request issued. -/
theorem fetchPages_okPage_cons (ms : List SlackUser) (c : String)
    (rest : List (List NetResult)) (acc : List (String × String)) (hc : c ≠ "") :
    fetchPages (okPageTrace ms c :: rest) acc =
      match fetchPages rest (collectMembers ms acc) with
      | .ok e n => .ok e (1 + n)
      | .err m n => .err m (1 + n)
      | .diverges => .diverges := by
  simp [fetchPages, okPageTrace, retryLoop, hc]

/-- A page answered first try with a 200 `ok=true` body and an empty cursor
ends the pagination with one request issued. -/
theorem fetchPages_okPage_last (ms : List SlackUser) (rest : List (List NetResult))
    (acc : List (String × String)) :
    fetchPages (okPageTrace ms "" :: rest) acc = .ok (collectMembers ms acc) 1 := by
  simp [fetchPages, okPageTrace, retryLoop]

/-- Pagination over successful pages: with nonempty cursors on `ps` and an
empty cursor on the last page, exactly `ps.length + 1` requests are issued,
all members are accumulated in order, and any further traces are never
touched. -/
theorem fetchPages_ok_pages (ps : List (List SlackUser × String)) (last : List SlackUser)
    (extra : List (List NetResult)) (acc : List (String × String))
    (h : ∀ p ∈ ps, p.2 ≠ "") :
    fetchPages (ps.map (fun p => okPageTrace p.1 p.2) ++ [okPageTrace last ""] ++ extra) acc =
      .ok (collectMembers last (collectAll ps acc)) (ps.length + 1) := by
  induction ps generalizing acc with
  | nil => simpa [collectAll] using fetchPages_okPage_last last extra acc
  | cons p ps ih =>
    obtain ⟨ms, c⟩ := p
    have hc : c ≠ "" := h (ms, c) (by simp)
    have hrest : ∀ q ∈ ps, q.2 ≠ "" := fun q hq => h q (List.mem_cons_of_mem _ hq)
    simp only [List.map_cons, List.cons_append]
    rw [fetchPages_okPage_cons ms c _ acc hc, ih (collectMembers ms acc) hrest]
    have harith : 1 + (ps.length + 1) = ps.length + 1 + 1 := by omega
    simp [collectAll, harith]

/-- C4: pages are requested sequentially and pagination stops exactly when a
successful page's next cursor is empty: over a run of successful pages the
number of requests equals the number of pages served, later traces are never
touched, and for cursors `"A"` then `""` exactly two requests are issued. -/
theorem C4_pagination_request_count :
    (∀ (ps : List (List SlackUser × String)) (last : List SlackUser)
        (extra : List (List NetResult)) (acc : List (String × String)),
      (∀ p ∈ ps, p.2 ≠ "") →
      fetchPages (ps.map (fun p => okPageTrace p.1 p.2) ++ [okPageTrace last ""] ++ extra) acc =
        .ok (collectMembers last (collectAll ps acc)) (ps.length + 1)) ∧
    (∀ ms1 ms2 : List SlackUser,
      fetchUserEmails [okPageTrace ms1 "A", okPageTrace ms2 ""] =
        .ok (collectMembers ms2 (collectMembers ms1 [])) 2) := by
  refine ⟨fetchPages_ok_pages, ?_⟩
  intro ms1 ms2
  have h := fetchPages_ok_pages [(ms1, "A")] ms2 [] [] (by simp)
  simpa [fetchUserEmails, collectAll] using h

theorem C4_pagination_request_count_witness :
    fetchPages [okPageTrace [] "A", okPageTrace [] "", okPageTrace [] "Z"] [] =
      .ok (collectMembers [] (collectAll [([], "A")] [])) 2 :=
  C4_pagination_request_count.1 [([], "A")] [] [okPageTrace [] "Z"] [] (by decide)

/-- C5: with a single page, the fetch fails terminally — with exactly one
request, never retried — precisely when the response status is a non-success
one outside the retryable classes (neither 429 nor ≥500), or when a 200
response's body lacks the `ok=true` marker (including an undecodable body);
in every such case no lookup table is produced. -/
theorem C5_terminal_error_conditions (s : Nat) (ra : String) (b : Option PageBody) :
    (isErr (fetchUserEmails [[.resp s ra b]]) = true ↔
      ((s ≠ 200 ∧ s ≠ 429 ∧ s < 500) ∨ (s = 200 ∧ lacksOk b = true))) ∧
    (∀ (m : String) (n : Nat), fetchUserEmails [[.resp s ra b]] = .err m n → n = 1) := by
  by_cases h429 : s = 429
  · subst h429
    have hdiv : fetchUserEmails [[.resp 429 ra b]] = .diverges := by
      simp [fetchUserEmails, fetchPages, retryLoop]
    refine ⟨?_, ?_⟩
    · rw [hdiv]
      simp only [isErr]
      constructor
      · intro hf; simp at hf
      · rintro (⟨h1, h2, h3⟩ | ⟨h1, h2⟩)
        · exact absurd rfl h2
        · exact absurd h1 (by omega)
    · intro m n hmn
      rw [hdiv] at hmn
      simp at hmn
  · by_cases h500 : 500 ≤ s
    · have hdiv : fetchUserEmails [[.resp s ra b]] = .diverges := by
        simp [fetchUserEmails, fetchPages, retryLoop, h429, h500]
      refine ⟨?_, ?_⟩
      · rw [hdiv]
        simp only [isErr]
        constructor
        · intro hf; simp at hf
        · rintro (⟨h1, h2, h3⟩ | ⟨h1, h2⟩)
          · exact absurd h3 (by omega)
          · exact absurd h1 (by omega)
      · intro m n hmn
        rw [hdiv] at hmn
        simp at hmn
    · have hlt : s < 500 := by omega
      by_cases h200 : s = 200
      · subst h200
        rcases b with _ | pb
        · have hval : fetchUserEmails [[.resp 200 ra none]] = .err "json decode error" 1 := by
            simp [fetchUserEmails, fetchPages, retryLoop, h429]
          refine ⟨?_, ?_⟩
          · rw [hval]
            simp [isErr, lacksOk]
          · intro m n hmn
            rw [hval] at hmn
            exact ((FetchResult.err.inj hmn).2).symm
        · obtain ⟨ok, mems, cur⟩ := pb
          cases ok
          · have hval : fetchUserEmails [[.resp 200 ra (some ⟨false, mems, cur⟩)]] =
                .err "Unexpected lack of ok=true in Slack API response. Is access token correct?"
                  1 := by
              simp [fetchUserEmails, fetchPages, retryLoop, h429]
            refine ⟨?_, ?_⟩
            · rw [hval]
              simp [isErr, lacksOk]
            · intro m n hmn
              rw [hval] at hmn
              exact ((FetchResult.err.inj hmn).2).symm
          · by_cases hc : cur = ""
            · subst hc
              have hval : fetchUserEmails [[.resp 200 ra (some ⟨true, mems, ""⟩)]] =
                  .ok (collectMembers mems []) 1 := by
                simp [fetchUserEmails, fetchPages, retryLoop, h429]
              refine ⟨?_, ?_⟩
              · rw [hval]
                simp [isErr, lacksOk]
              · intro m n hmn
                rw [hval] at hmn
                simp at hmn
            · have hval : fetchUserEmails [[.resp 200 ra (some ⟨true, mems, cur⟩)]] =
                  .diverges := by
                simp [fetchUserEmails, fetchPages, retryLoop, h429, hc]
              refine ⟨?_, ?_⟩
              · rw [hval]
                simp [isErr, lacksOk]
              · intro m n hmn
                rw [hval] at hmn
                simp at hmn
      · have hval : fetchUserEmails [[.resp s ra b]] =
            .err ("Slack API returned HTTP code " ++ toString s) 1 := by
          simp [fetchUserEmails, fetchPages, retryLoop, h429, h500, h200]
        refine ⟨?_, ?_⟩
        · rw [hval]
          simp only [isErr]
          constructor
          · intro _
            exact Or.inl ⟨h200, h429, hlt⟩
          · intro _
            trivial
        · intro m n hmn
          rw [hval] at hmn
          exact ((FetchResult.err.inj hmn).2).symm

theorem C5_terminal_error_conditions_witness :
    isErr (fetchUserEmails [[.resp 404 "" none]]) = true ∧
      ((404 ≠ 200 ∧ 404 ≠ 429 ∧ 404 < 500) ∨ (404 = 200 ∧ lacksOk none = true)) :=
  ⟨(C5_terminal_error_conditions 404 "" none).1.mpr (Or.inl (by omega)),
   Or.inl (by omega)⟩

end SAE
